import Mathlib

/-!
Verification development for the OPFS proof-of-concept repository:
a main-thread channel bridge (`src/OPFS.ts`) that proxies six storage
operations over `postMessage` to a worker-side dispatcher and executor
(`src/opfs.worker.ts`) operating on the Origin Private File System.

The worker-side storage backend (directory handles, sync access handles,
`TextEncoder`/text decoding) is external to the repository; it is modelled
here as a flat store of named entries with byte contents, following the
Storage Backend interface the spec describes.  All repository code is
translated directly from the two TypeScript sources.
-/

namespace OPFSPOC

-- ═════════════════════════════════════════════════════════════════════════
-- UTF-8 codec: model of the platform text encoder used by the write path
-- (`new TextEncoder().encode(content)`) and of the text decoding performed
-- by `file.text()` on the read path.
-- ═════════════════════════════════════════════════════════════════════════

/-- UTF-8 encoding of one Unicode scalar value, as produced by the platform
text encoder invoked in `opfsCreate` / `opfsUpdate`. -/
def utf8EncodeChar (c : Char) : List Nat :=
  let n := c.toNat
  if n < 0x80 then [n]
  else if n < 0x800 then [0xC0 + n / 0x40, 0x80 + n % 0x40]
  else if n < 0x10000 then [0xE0 + n / 0x1000, 0x80 + n / 0x40 % 0x40, 0x80 + n % 0x40]
  else [0xF0 + n / 0x40000, 0x80 + n / 0x1000 % 0x40, 0x80 + n / 0x40 % 0x40,
        0x80 + n % 0x40]

/-- UTF-8 byte sequence of a whole string. -/
def utf8Encode (s : String) : List Nat := s.data.flatMap utf8EncodeChar

/-- Continuation-byte test (byte of the form `10xxxxxx`). -/
def isCont (b : Nat) : Bool := decide (0x80 ≤ b) && decide (b < 0xC0)

/-- Decode one UTF-8 scalar value from the front of a byte list, returning
the character and the remaining bytes, or `none` on malformed input. -/
def utf8DecodeOne : List Nat → Option (Char × List Nat)
  | [] => none
  | b :: bs =>
    if b < 0x80 then some (Char.ofNat b, bs)
    else if b < 0xC0 then none
    else if b < 0xE0 then
      match bs with
      | b1 :: bs2 =>
        if isCont b1 then
          some (Char.ofNat ((b - 0xC0) * 0x40 + (b1 - 0x80)), bs2)
        else none
      | [] => none
    else if b < 0xF0 then
      match bs with
      | b1 :: b2 :: bs3 =>
        if isCont b1 && isCont b2 then
          some (Char.ofNat ((b - 0xE0) * 0x1000 + (b1 - 0x80) * 0x40 + (b2 - 0x80)), bs3)
        else none
      | _ => none
    else if b < 0xF8 then
      match bs with
      | b1 :: b2 :: b3 :: bs4 =>
        if isCont b1 && isCont b2 && isCont b3 then
          some (Char.ofNat ((b - 0xF0) * 0x40000 + (b1 - 0x80) * 0x1000 +
            (b2 - 0x80) * 0x40 + (b3 - 0x80)), bs4)
        else none
      | _ => none
    else none

/-- Fuel-indexed driver of the decoder; the fuel bounds the number of
decoded characters and is instantiated with the byte count. -/
def utf8DecodeLoop : Nat → List Nat → Option (List Char)
  | _, [] => some []
  | 0, _ :: _ => none
  | fuel + 1, b :: bs =>
    match utf8DecodeOne (b :: bs) with
    | some (c, rest) => (utf8DecodeLoop fuel rest).map (List.cons c)
    | none => none

/-- Text decoding of a byte list into a string, as performed by
`file.text()` on the read path; `none` on structurally malformed input (the
store only ever holds byte sequences written by the encoder, so the
replacement-character behaviour of the platform decoder is not exercised). -/
def utf8Decode (l : List Nat) : Option String :=
  (utf8DecodeLoop l.length l).map String.mk

theorem char_toNat_lt (c : Char) : c.toNat < 0x110000 := by
  have h := c.valid
  unfold UInt32.isValidChar Nat.isValidChar at h
  simp [Char.toNat] at *
  omega

theorem utf8EncodeChar_ne_nil (c : Char) : utf8EncodeChar c ≠ [] := by
  simp only [utf8EncodeChar]
  split <;> simp_all
  split <;> simp_all
  split <;> simp_all

theorem utf8DecodeOne_encodeChar (c : Char) (bs : List Nat) :
    utf8DecodeOne (utf8EncodeChar c ++ bs) = some (c, bs) := by
  have hcv := char_toNat_lt c
  rcases Nat.lt_or_ge c.toNat 0x80 with h | h
  · have e1 : utf8EncodeChar c = [c.toNat] := by
      simp only [utf8EncodeChar]
      rw [if_pos h]
    rw [e1]
    simp only [List.cons_append, List.nil_append, utf8DecodeOne, if_pos h,
      Char.ofNat_toNat]
  · rcases Nat.lt_or_ge c.toNat 0x800 with h2 | h2
    · have e1 : utf8EncodeChar c = [0xC0 + c.toNat / 0x40, 0x80 + c.toNat % 0x40] := by
        simp only [utf8EncodeChar]
        rw [if_neg (by omega), if_pos h2]
      have hb0 : ¬ (0xC0 + c.toNat / 0x40 < 0x80) := by omega
      have hb1 : ¬ (0xC0 + c.toNat / 0x40 < 0xC0) := by omega
      have hb2 : 0xC0 + c.toNat / 0x40 < 0xE0 := by omega
      have hc1 : isCont (0x80 + c.toNat % 0x40) = true := by
        simp only [isCont, Bool.and_eq_true, decide_eq_true_eq]
        omega
      have harith : (0xC0 + c.toNat / 0x40 - 0xC0) * 0x40 +
          (0x80 + c.toNat % 0x40 - 0x80) = c.toNat := by omega
      rw [e1]
      simp only [List.cons_append, List.nil_append, utf8DecodeOne,
        if_neg hb0, if_neg hb1, if_pos hb2, hc1, if_true, harith, Char.ofNat_toNat]
    · rcases Nat.lt_or_ge c.toNat 0x10000 with h3 | h3
      · have e1 : utf8EncodeChar c = [0xE0 + c.toNat / 0x1000,
            0x80 + c.toNat / 0x40 % 0x40, 0x80 + c.toNat % 0x40] := by
          simp only [utf8EncodeChar]
          rw [if_neg (by omega), if_neg (by omega), if_pos h3]
        have hb0 : ¬ (0xE0 + c.toNat / 0x1000 < 0x80) := by omega
        have hb1 : ¬ (0xE0 + c.toNat / 0x1000 < 0xC0) := by omega
        have hb2 : ¬ (0xE0 + c.toNat / 0x1000 < 0xE0) := by omega
        have hb3 : 0xE0 + c.toNat / 0x1000 < 0xF0 := by omega
        have hc1 : isCont (0x80 + c.toNat / 0x40 % 0x40) = true := by
          simp only [isCont, Bool.and_eq_true, decide_eq_true_eq]
          omega
        have hc2 : isCont (0x80 + c.toNat % 0x40) = true := by
          simp only [isCont, Bool.and_eq_true, decide_eq_true_eq]
          omega
        have harith : (0xE0 + c.toNat / 0x1000 - 0xE0) * 0x1000 +
            (0x80 + c.toNat / 0x40 % 0x40 - 0x80) * 0x40 +
            (0x80 + c.toNat % 0x40 - 0x80) = c.toNat := by omega
        rw [e1]
        simp only [List.cons_append, List.nil_append, utf8DecodeOne,
          if_neg hb0, if_neg hb1, if_neg hb2, if_pos hb3, hc1, hc2,
          Bool.and_self, if_true, harith, Char.ofNat_toNat]
      · have e1 : utf8EncodeChar c = [0xF0 + c.toNat / 0x40000,
            0x80 + c.toNat / 0x1000 % 0x40, 0x80 + c.toNat / 0x40 % 0x40,
            0x80 + c.toNat % 0x40] := by
          simp only [utf8EncodeChar]
          rw [if_neg (by omega), if_neg (by omega), if_neg (by omega)]
        have hb0 : ¬ (0xF0 + c.toNat / 0x40000 < 0x80) := by omega
        have hb1 : ¬ (0xF0 + c.toNat / 0x40000 < 0xC0) := by omega
        have hb2 : ¬ (0xF0 + c.toNat / 0x40000 < 0xE0) := by omega
        have hb3 : ¬ (0xF0 + c.toNat / 0x40000 < 0xF0) := by omega
        have hb4 : 0xF0 + c.toNat / 0x40000 < 0xF8 := by omega
        have hc1 : isCont (0x80 + c.toNat / 0x1000 % 0x40) = true := by
          simp only [isCont, Bool.and_eq_true, decide_eq_true_eq]
          omega
        have hc2 : isCont (0x80 + c.toNat / 0x40 % 0x40) = true := by
          simp only [isCont, Bool.and_eq_true, decide_eq_true_eq]
          omega
        have hc3 : isCont (0x80 + c.toNat % 0x40) = true := by
          simp only [isCont, Bool.and_eq_true, decide_eq_true_eq]
          omega
        have harith : (0xF0 + c.toNat / 0x40000 - 0xF0) * 0x40000 +
            (0x80 + c.toNat / 0x1000 % 0x40 - 0x80) * 0x1000 +
            (0x80 + c.toNat / 0x40 % 0x40 - 0x80) * 0x40 +
            (0x80 + c.toNat % 0x40 - 0x80) = c.toNat := by omega
        rw [e1]
        simp only [List.cons_append, List.nil_append, utf8DecodeOne,
          if_neg hb0, if_neg hb1, if_neg hb2, if_neg hb3, if_pos hb4,
          hc1, hc2, hc3, Bool.and_self, if_true, harith, Char.ofNat_toNat]

theorem utf8DecodeLoop_encode_chars (cs : List Char) (fuel : Nat)
    (hfuel : (cs.flatMap utf8EncodeChar).length ≤ fuel) :
    utf8DecodeLoop fuel (cs.flatMap utf8EncodeChar) = some cs := by
  induction cs generalizing fuel with
  | nil =>
    cases fuel <;> rfl
  | cons c cs ih =>
    rw [List.flatMap_cons] at *
    obtain ⟨b, bs1, hb⟩ : ∃ b bs1, utf8EncodeChar c = b :: bs1 := by
      cases he : utf8EncodeChar c with
      | nil => exact absurd he (utf8EncodeChar_ne_nil c)
      | cons b bs1 => exact ⟨b, bs1, rfl⟩
    have hlen : 1 + (cs.flatMap utf8EncodeChar).length ≤
        (utf8EncodeChar c ++ cs.flatMap utf8EncodeChar).length := by
      rw [List.length_append, hb]
      simp
    cases fuel with
    | zero => omega
    | succ f =>
      have hshape : utf8EncodeChar c ++ cs.flatMap utf8EncodeChar =
          b :: (bs1 ++ cs.flatMap utf8EncodeChar) := by
        rw [hb]
        simp
      rw [hshape]
      have hone : utf8DecodeOne (b :: (bs1 ++ cs.flatMap utf8EncodeChar)) =
          some (c, cs.flatMap utf8EncodeChar) := by
        rw [← List.cons_append, ← hb]
        exact utf8DecodeOne_encodeChar c _
      rw [utf8DecodeLoop, hone]
      show (utf8DecodeLoop f (cs.flatMap utf8EncodeChar)).map (List.cons c) =
        some (c :: cs)
      rw [ih f (by omega)]
      rfl

/-- Decoding is a left inverse of encoding: the platform text decoder gives
back exactly the string the platform text encoder produced bytes for. -/
theorem utf8Decode_utf8Encode (s : String) : utf8Decode (utf8Encode s) = some s := by
  unfold utf8Decode utf8Encode
  rw [utf8DecodeLoop_encode_chars s.data _ (Nat.le_refl _)]
  rfl

-- ═════════════════════════════════════════════════════════════════════════
-- Storage backend model: the flat origin-private directory the worker
-- operates on (directory enumeration, file-handle acquisition with a
-- create-or-must-exist flag, entry removal), per the Storage Backend
-- interface of the spec.
-- ═════════════════════════════════════════════════════════════════════════

/-- Kind of a directory entry, as reported by `entry.kind`. -/
inductive EntryKind
  | file
  | dir
deriving DecidableEq

/-- One entry of the root directory: a name, a kind, and (for files) the
stored byte content. -/
structure DirEntry where
  name : String
  kind : EntryKind
  data : List Nat
deriving DecidableEq

/-- The flat root-directory state. -/
abbrev Store := List DirEntry

/-- Look up a directory entry by name. -/
def findEntry (store : Store) (name : String) : Option DirEntry :=
  store.find? (fun e => e.name == name)

/-- Byte content of the named file, if present as a file. -/
def fileData (store : Store) (name : String) : Option (List Nat) :=
  match findEntry store name with
  | some e => if e.kind = EntryKind.file then some e.data else none
  | none => none

/-- Backend `root.getFileHandle(name, \x7b create \x7d)`: yields the
(possibly extended) directory state together with the current byte content
of the named file; fails when the name denotes a directory, or is absent
while `create` is false. -/
def getFileHandle (store : Store) (name : String) (create : Bool) :
    Except String (Store × List Nat) :=
  match findEntry store name with
  | some e =>
    if e.kind = EntryKind.file then Except.ok (store, e.data)
    else Except.error ("TypeMismatchError: " ++ name ++ " is not a file")
  | none =>
    if create then Except.ok (store ++ [⟨name, EntryKind.file, []⟩], [])
    else Except.error ("NotFoundError: " ++ name)

/-- Replace the byte content of the named entry. -/
def setFileData (store : Store) (name : String) (d : List Nat) : Store :=
  store.map (fun e => if e.name == name then { e with data := d } else e)

/-- Backend `root.removeEntry(name)`: removes the named entry, failing when
it does not exist. -/
def removeEntry (store : Store) (name : String) : Store × Except String Unit :=
  match findEntry store name with
  | some _ => (store.filter (fun e => !(e.name == name)), Except.ok ())
  | none => (store, Except.error ("NotFoundError: " ++ name))

-- ═════════════════════════════════════════════════════════════════════════
-- Synchronous access handle: operations performed while the handle is held,
-- and the shared truncate/write/flush/close write path of `opfsCreate` and
-- `opfsUpdate` with fault injection for each step that can throw.
-- ═════════════════════════════════════════════════════════════════════════

/-- One operation on an open synchronous access handle. -/
inductive HOp
  | truncate (size : Nat)
  | write (bytes : List Nat) (off : Nat)
  | flush
  | close
deriving DecidableEq

/-- Effect of one handle operation on the file's byte content: `truncate n`
keeps the first `n` bytes, `write bytes off` overwrites at the byte offset
(zero-padding any gap), `flush` and `close` leave the bytes unchanged. -/
def applyHOp (data : List Nat) : HOp → List Nat
  | HOp.truncate n => data.take n
  | HOp.write bytes off =>
      data.take off ++ List.replicate (off - data.length) 0 ++ bytes ++
        data.drop (off + bytes.length)
  | HOp.flush => data
  | HOp.close => data

/-- Fault injection for the write path: each field, when `some e`, makes the
corresponding step throw with message `e`. -/
structure Faults where
  encodeErr : Option String
  truncateErr : Option String
  writeErr : Option String
  flushErr : Option String
deriving DecidableEq

/-- The fault-free execution. -/
def noFaults : Faults := ⟨none, none, none, none⟩

/-- Outcome of the write path: the handle operations performed, in order,
and the overall result of the `try` block. -/
structure WriteOutcome where
  trace : List HOp
  result : Except String Unit

/-- The `try \x7b encode; truncate(0); write(encoded, at 0); flush() \x7d
finally \x7b close() \x7d` block shared by `opfsCreate` and `opfsUpdate`:
steps run in order until one throws, and `close` runs on every exit path. -/
def syncWritePath (f : Faults) (content : String) : WriteOutcome :=
  match f.encodeErr with
  | some e => { trace := [HOp.close], result := Except.error e }
  | none =>
    let encoded := utf8Encode content
    match f.truncateErr with
    | some e => { trace := [HOp.close], result := Except.error e }
    | none =>
      match f.writeErr with
      | some e => { trace := [HOp.truncate 0, HOp.close], result := Except.error e }
      | none =>
        match f.flushErr with
        | some e =>
          { trace := [HOp.truncate 0, HOp.write encoded 0, HOp.close],
            result := Except.error e }
        | none =>
          { trace := [HOp.truncate 0, HOp.write encoded 0, HOp.flush, HOp.close],
            result := Except.ok () }

-- ═════════════════════════════════════════════════════════════════════════
-- Operation Executor (`opfs.worker.ts`): the six storage operations.
-- ═════════════════════════════════════════════════════════════════════════

/-- Capabilities of the hosting environment as probed by `opfsInit`:
whether `navigator.storage.getDirectory` exists, whether
`navigator.storage.persist` exists, and what the persistence request would
report. -/
structure Env where
  hasGetDirectory : Bool
  hasPersist : Bool
  persistGranted : Bool
deriving DecidableEq

/-- `opfsInit`: fail when the backend capability is absent; otherwise issue
the best-effort persistence request (its outcome is ignored) and open the
root directory handle. -/
def opfsInit (env : Env) : Except String Unit :=
  if !env.hasGetDirectory then
    Except.error "OPFS is not supported in this browser."
  else
    let _granted := if env.hasPersist then env.persistGranted else false
    Except.ok ()

/-- JS `name.startsWith(".")`: whether the first character is a dot. -/
def startsWithDot (s : String) : Bool :=
  match s.data with
  | c :: _ => c == '.'
  | [] => false

/-- Code-point comparison of character lists: the effect of the default
`localeCompare` on the ASCII names this store uses. -/
def charListLe : List Char → List Char → Bool
  | [], _ => true
  | _ :: _, [] => false
  | a :: as, b :: bs =>
    if a.toNat < b.toNat then true
    else if b.toNat < a.toNat then false
    else charListLe as bs

/-- Locale comparator `a.localeCompare(b) <= 0` for the host's default
locale, as a relation on strings. -/
def localeLe (a b : String) : Bool := charListLe a.data b.data

/-- The enumeration-and-filter loop of `opfsList`: names of file-kind
entries whose name does not start with a dot, in directory order. -/
def visibleNames (store : Store) : List String :=
  (store.filter (fun e =>
    decide (e.kind = EntryKind.file) && !(startsWithDot e.name))).map
      (fun e => e.name)

/-- `opfsList`: enumerate root entries, keep file-kind entries whose name
does not start with a dot, and sort the names with the locale comparator
`le` (modelling `a.localeCompare(b)` of the host locale). -/
def opfsList (le : String → String → Bool) (store : Store) :
    Except String (List String) :=
  Except.ok ((visibleNames store).mergeSort le)

/-- `opfsRead`: acquire the file handle with `create: false` and decode the
whole content as text. -/
def opfsRead (store : Store) (fileName : String) : Except String String :=
  (getFileHandle store fileName false).map (fun p => (utf8Decode p.2).getD "")

/-- `opfsCreate`: acquire (or create) the file handle, run the write path,
and return the stored file name.  The store reflects every handle operation
performed before a fault. -/
def opfsCreate (f : Faults) (store : Store) (fileName content : String) :
    Store × Except String String :=
  match getFileHandle store fileName true with
  | Except.error e => (store, Except.error e)
  | Except.ok (store1, oldData) =>
    let out := syncWritePath f content
    let store2 := setFileData store1 fileName (out.trace.foldl applyHOp oldData)
    (store2, out.result.map (fun _ => fileName))

/-- `opfsUpdate`: identical write path, but the file handle is acquired with
`create: false`, so the file must already exist. -/
def opfsUpdate (f : Faults) (store : Store) (fileName content : String) :
    Store × Except String Unit :=
  match getFileHandle store fileName false with
  | Except.error e => (store, Except.error e)
  | Except.ok (store1, oldData) =>
    let out := syncWritePath f content
    let store2 := setFileData store1 fileName (out.trace.foldl applyHOp oldData)
    (store2, out.result)

/-- `opfsDelete`: remove the named entry from the root directory. -/
def opfsDelete (store : Store) (fileName : String) : Store × Except String Unit :=
  removeEntry store fileName

-- ═════════════════════════════════════════════════════════════════════════
-- Message protocol and the Isolated Context Dispatcher (`self.onmessage`).
-- ═════════════════════════════════════════════════════════════════════════

/-- Inbound Operation Envelope.  The `type` field is kept as a raw string so
that envelopes with an unrecognized discriminator are expressible; the
payload fields are empty strings when a variant does not carry them. -/
structure Request where
  correlationId : String
  type : String
  fileName : String
  content : String
deriving DecidableEq

/-- Success payload of a Result Envelope (`void`, `string`, `string[]`). -/
inductive RData
  | unit
  | str (s : String)
  | strs (l : List String)
deriving DecidableEq

/-- Outbound Result Envelope: success with payload, or failure with a
human-readable error string. -/
inductive Response
  | success (correlationId : String) (data : RData)
  | failure (correlationId : String) (error : String)
deriving DecidableEq

/-- Correlation id carried by a Result Envelope. -/
def Response.correlationId : Response → String
  | Response.success cid _ => cid
  | Response.failure cid _ => cid

/-- The six recognized `type` discriminators. -/
def knownTypes : List String := ["init", "list", "create", "read", "update", "delete"]

/-- The executor path of the dispatcher's `switch`: invoke the executor
function matching the discriminator; an unrecognized discriminator yields
the protocol error of the `default` branch. -/
def executorPath (env : Env) (le : String → String → Bool) (f : Faults)
    (store : Store) (req : Request) : Store × Except String RData :=
  if req.type = "init" then
    (store, (opfsInit env).map (fun _ => RData.unit))
  else if req.type = "list" then
    (store, (opfsList le store).map RData.strs)
  else if req.type = "create" then
    let (store2, r) := opfsCreate f store req.fileName req.content
    (store2, r.map RData.str)
  else if req.type = "read" then
    (store, (opfsRead store req.fileName).map RData.str)
  else if req.type = "update" then
    let (store2, r) := opfsUpdate f store req.fileName req.content
    (store2, r.map (fun _ => RData.unit))
  else if req.type = "delete" then
    let (store2, r) := opfsDelete store req.fileName
    (store2, r.map (fun _ => RData.unit))
  else
    (store, Except.error ("Unknown message type: " ++ req.type))

/-- The worker's `self.onmessage` handler: run the executor path under the
surrounding `try`/`catch` and post exactly the envelopes listed, each tagged
with the request's correlation id (`reply` on success, `replyError` on any
caught exception or on the unknown-type branch). -/
def workerOnMessage (env : Env) (le : String → String → Bool) (f : Faults)
    (store : Store) (req : Request) : Store × List Response :=
  match executorPath env le f store req with
  | (store2, Except.ok d) => (store2, [Response.success req.correlationId d])
  | (store2, Except.error e) => (store2, [Response.failure req.correlationId e])

-- ═════════════════════════════════════════════════════════════════════════
-- Channel Bridge (`OPFS.ts`): singleton worker handle, pending-call
-- registry, send helper, and the inbound response listener.
-- ═════════════════════════════════════════════════════════════════════════

/-- State of a caller-visible promise. -/
inductive PromiseState
  | unsettled
  | resolved (d : RData)
  | rejected (e : String)
deriving DecidableEq

/-- One live worker instance: its identity and which listeners have been
attached to it. -/
structure WorkerInst where
  wid : Nat
  hasMessageListener : Bool
  hasErrorListener : Bool
deriving DecidableEq

/-- Whole state of the calling context: the singleton worker slot, the
module-level pending registry (shared across worker instances), the promise
heap, and the envelopes posted so far (tagged with the instance they were
posted to). -/
structure BridgeState where
  worker : Option WorkerInst
  nextWid : Nat
  pending : List (String × Nat)
  promises : List (Nat × PromiseState)
  nextPid : Nat
  posted : List (Nat × Request)
deriving DecidableEq

/-- `pending.get(k)` of the JS `Map`: value at the first (and only)
occurrence of the key. -/
def mapGet : List (String × Nat) → String → Option Nat
  | [], _ => none
  | p :: m, k => if p.1 == k then some p.2 else mapGet m k

/-- `pending.set(k, v)` of the JS `Map`: overwrite in place or append. -/
def mapSet : List (String × Nat) → String → Nat → List (String × Nat)
  | [], k, v => [(k, v)]
  | p :: m, k, v => if p.1 == k then (k, v) :: m else p :: mapSet m k v

/-- `pending.delete(k)` of the JS `Map`. -/
def mapDelete : List (String × Nat) → String → List (String × Nat)
  | [], _ => []
  | p :: m, k => if p.1 == k then mapDelete m k else p :: mapDelete m k

/-- Resolve a promise; settling is single-shot, so an already-settled
promise is left as it is. -/
def resolvePromise : List (Nat × PromiseState) → Nat → RData →
    List (Nat × PromiseState)
  | [], _, _ => []
  | p :: ps, pid, d =>
    (if p.1 == pid then
      (p.1, match p.2 with | PromiseState.unsettled => PromiseState.resolved d
                           | st => st)
     else p) :: resolvePromise ps pid d

/-- Reject a promise; settling is single-shot. -/
def rejectPromise : List (Nat × PromiseState) → Nat → String →
    List (Nat × PromiseState)
  | [], _, _ => []
  | p :: ps, pid, e =>
    (if p.1 == pid then
      (p.1, match p.2 with | PromiseState.unsettled => PromiseState.rejected e
                           | st => st)
     else p) :: rejectPromise ps pid e

/-- Lookup in the promise heap. -/
def pmGet : List (Nat × PromiseState) → Nat → Option PromiseState
  | [], _ => none
  | p :: ps, pid => if p.1 == pid then some p.2 else pmGet ps pid

/-- State of promise `pid`. -/
def promiseState (s : BridgeState) (pid : Nat) : Option PromiseState :=
  pmGet s.promises pid

/-- A freshly constructed worker: `getWorker` assigns `onerror` and calls
`attachResponseListener` before returning it, so both listeners are
attached. -/
def newWorker (wid : Nat) : WorkerInst :=
  { wid := wid, hasMessageListener := true, hasErrorListener := true }

/-- `getWorker()`: return the singleton instance, creating it lazily. -/
def getWorker (s : BridgeState) : BridgeState × WorkerInst :=
  match s.worker with
  | some w => (s, w)
  | none =>
    let w := newWorker s.nextWid
    ({ s with worker := some w, nextWid := s.nextWid + 1 }, w)

/-- The `worker.onerror` handler: log and clear the singleton slot so the
next call recreates the worker.  Nothing else is touched. -/
def onWorkerError (s : BridgeState) : BridgeState := { s with worker := none }

/-- The body of the `Promise` executor inside `send`: allocate the promise
and register its resolvers in the pending registry under the correlation
id.  Returns the new state and the promise's identity. -/
def registerCall (s : BridgeState) (cid : String) : BridgeState × Nat :=
  ({ s with
      promises := s.promises ++ [(s.nextPid, PromiseState.unsettled)],
      pending := mapSet s.pending cid s.nextPid,
      nextPid := s.nextPid + 1 }, s.nextPid)

/-- `w.postMessage(request)`: hand the envelope to the worker's transport. -/
def postRequest (s : BridgeState) (w : WorkerInst) (req : Request) : BridgeState :=
  { s with posted := s.posted ++ [(w.wid, req)] }

/-- `send(request)`: obtain the worker, register the pending entry, then
post the envelope — in that order, as in the source. -/
def send (s : BridgeState) (req : Request) : BridgeState × Nat :=
  let (s1, w) := getWorker s
  let (s2, pid) := registerCall s1 req.correlationId
  (postRequest s2 w req, pid)

/-- The response listener installed by `attachResponseListener`: look up the
pending entry by the envelope's correlation id; discard silently when
absent; otherwise delete the entry and settle its promise according to the
envelope's tag. -/
def bridgeOnMessage (s : BridgeState) (resp : Response) : BridgeState :=
  match mapGet s.pending resp.correlationId with
  | none => s
  | some pid =>
    let s1 := { s with pending := mapDelete s.pending resp.correlationId }
    match resp with
    | Response.success _ d => { s1 with promises := resolvePromise s1.promises pid d }
    | Response.failure _ e => { s1 with promises := rejectPromise s1.promises pid e }

/-- Issue a list of calls back to back (all before any response), collecting
the promise identities in order. -/
def sendPids : BridgeState → List Request → BridgeState × List Nat
  | s, [] => (s, [])
  | s, r :: rs =>
    ((sendPids (send s r).1 rs).1, (send s r).2 :: (sendPids (send s r).1 rs).2)

/-- Events observable by the calling context. -/
inductive BridgeEvent
  | call (req : Request)
  | response (resp : Response)
  | workerCrash

/-- One step of the calling context. -/
def stepBridge (s : BridgeState) : BridgeEvent → BridgeState
  | BridgeEvent.call req => (send s req).1
  | BridgeEvent.response r => bridgeOnMessage s r
  | BridgeEvent.workerCrash => onWorkerError s

/-- Run a sequence of events. -/
def runBridge (s : BridgeState) (evs : List BridgeEvent) : BridgeState :=
  evs.foldl stepBridge s

-- ═════════════════════════════════════════════════════════════════════════
-- Helper lemmas: the locale comparator is a total preorder, antisymmetric
-- on equal strings.
-- ═════════════════════════════════════════════════════════════════════════

theorem char_eq_of_toNat_eq (a b : Char) (h : a.toNat = b.toNat) : a = b := by
  rw [← Char.ofNat_toNat a, ← Char.ofNat_toNat b, h]

theorem charListLe_trans (as : List Char) : ∀ bs cs, charListLe as bs = true →
    charListLe bs cs = true → charListLe as cs = true := by
  induction as with
  | nil => intro bs cs _ _; rfl
  | cons a as ih =>
    intro bs cs h1 h2
    cases bs with
    | nil => simp [charListLe] at h1
    | cons b bs =>
      cases cs with
      | nil => simp [charListLe] at h2
      | cons c cs =>
        simp only [charListLe] at h1 h2 ⊢
        by_cases hab : a.toNat < b.toNat
        · by_cases hbc : b.toNat < c.toNat
          · simp [show a.toNat < c.toNat by omega]
          · by_cases hcb : c.toNat < b.toNat
            · simp [hbc, hcb] at h2
            · simp [show a.toNat < c.toNat by omega]
        · by_cases hba : b.toNat < a.toNat
          · simp [hab, hba] at h1
          · simp only [if_neg hab, if_neg hba] at h1
            by_cases hbc : b.toNat < c.toNat
            · simp [show a.toNat < c.toNat by omega]
            · by_cases hcb : c.toNat < b.toNat
              · simp [hbc, hcb] at h2
              · simp only [if_neg hbc, if_neg hcb] at h2
                have h3 := ih bs cs h1 h2
                simp [show ¬ a.toNat < c.toNat by omega,
                  show ¬ c.toNat < a.toNat by omega, h3]

theorem charListLe_total (as : List Char) : ∀ bs,
    (charListLe as bs || charListLe bs as) = true := by
  induction as with
  | nil => intro bs; simp [charListLe]
  | cons a as ih =>
    intro bs
    cases bs with
    | nil => simp [charListLe]
    | cons b bs =>
      simp only [charListLe]
      by_cases hab : a.toNat < b.toNat
      · simp [hab]
      · by_cases hba : b.toNat < a.toNat
        · simp [hab, hba]
        · simp only [if_neg hab, if_neg hba]
          exact ih bs

theorem charListLe_antisymm (as : List Char) : ∀ bs, charListLe as bs = true →
    charListLe bs as = true → as = bs := by
  induction as with
  | nil =>
    intro bs _ h2
    cases bs with
    | nil => rfl
    | cons b bs => simp [charListLe] at h2
  | cons a as ih =>
    intro bs h1 h2
    cases bs with
    | nil => simp [charListLe] at h1
    | cons b bs =>
      simp only [charListLe] at h1 h2
      by_cases hab : a.toNat < b.toNat
      · simp [show ¬ b.toNat < a.toNat by omega, hab] at h2
      · by_cases hba : b.toNat < a.toNat
        · simp [hab, hba] at h1
        · simp only [if_neg hab, if_neg hba] at h1 h2
          have he : a = b := char_eq_of_toNat_eq a b (by omega)
          rw [he, ih bs h1 h2]

theorem localeLe_trans (a b c : String) (h1 : localeLe a b = true)
    (h2 : localeLe b c = true) : localeLe a c = true :=
  charListLe_trans a.data b.data c.data h1 h2

theorem localeLe_total (a b : String) : (localeLe a b || localeLe b a) = true :=
  charListLe_total a.data b.data

theorem localeLe_antisymm (a b : String) (h1 : localeLe a b = true)
    (h2 : localeLe b a = true) : a = b := by
  have h := charListLe_antisymm a.data b.data h1 h2
  exact congrArg String.mk h

-- ═════════════════════════════════════════════════════════════════════════
-- C8: `init` capability probe and best-effort persistence.
-- ═════════════════════════════════════════════════════════════════════════

/-- C8: `init` fails with the "unsupported" error exactly when the
directory-acquisition capability is absent; when present, the result is a
payload-free success regardless of whether the persistence capability
exists or whether the persistent-storage grant would be given. -/
theorem init_unsupported_iff_no_capability (env : Env) :
    opfsInit env = (if env.hasGetDirectory then Except.ok ()
      else Except.error "OPFS is not supported in this browser.") := by
  unfold opfsInit
  cases h : env.hasGetDirectory <;> simp

-- ═════════════════════════════════════════════════════════════════════════
-- C6: `list` filtering, ordering and the worked example.
-- ═════════════════════════════════════════════════════════════════════════

theorem mem_visibleNames (store : Store) (n : String) :
    n ∈ visibleNames store ↔ ∃ e, e ∈ store ∧ e.kind = EntryKind.file ∧
      startsWithDot e.name = false ∧ e.name = n := by
  simp only [visibleNames, List.mem_map, List.mem_filter, Bool.and_eq_true,
    decide_eq_true_eq, Bool.not_eq_true']
  constructor
  · rintro ⟨e, ⟨hmem, hkind, hdot⟩, hname⟩
    exact ⟨e, hmem, hkind, hdot, hname⟩
  · rintro ⟨e, hmem, hkind, hdot, hname⟩
    exact ⟨e, ⟨hmem, hkind, hdot⟩, hname⟩

/-- The directory state of the spec's worked example: files `b.txt`,
`a.txt`, `.hidden` present. -/
def exampleStore : Store :=
  [⟨"b.txt", EntryKind.file, []⟩, ⟨"a.txt", EntryKind.file, []⟩,
   ⟨".hidden", EntryKind.file, []⟩]

/-- C6: for every directory state, `list` succeeds with exactly the names
of file-kind entries not starting with a dot, sorted ascending by the
locale comparator; and on the worked example with the default-locale
comparator it returns exactly `["a.txt", "b.txt"]`. -/
theorem list_visible_sorted (le : String → String → Bool)
    (htrans : ∀ a b c, le a b = true → le b c = true → le a c = true)
    (htotal : ∀ a b, (le a b || le b a) = true) (store : Store) :
    (∃ names, opfsList le store = Except.ok names ∧
      (∀ n, n ∈ names ↔ ∃ e, e ∈ store ∧ e.kind = EntryKind.file ∧
        startsWithDot e.name = false ∧ e.name = n) ∧
      names.Pairwise (fun a b => le a b = true)) ∧
    opfsList localeLe exampleStore = Except.ok ["a.txt", "b.txt"] := by
  constructor
  · refine ⟨(visibleNames store).mergeSort le, rfl, ?_, ?_⟩
    · intro n
      rw [(List.mergeSort_perm (visibleNames store) le).mem_iff]
      exact mem_visibleNames store n
    · exact List.sorted_mergeSort htrans htotal (visibleNames store)
  · have hvis : visibleNames exampleStore = ["b.txt", "a.txt"] := by decide
    have hperm : ((visibleNames exampleStore).mergeSort localeLe).Perm
        ["a.txt", "b.txt"] := by
      refine (List.mergeSort_perm (visibleNames exampleStore) localeLe).trans ?_
      rw [hvis]
      decide
    have hsorted1 : ((visibleNames exampleStore).mergeSort localeLe).Pairwise
        (fun a b => localeLe a b = true) :=
      List.sorted_mergeSort localeLe_trans localeLe_total _
    have hsorted2 : (["a.txt", "b.txt"] : List String).Pairwise
        (fun a b => localeLe a b = true) := by decide
    haveI : IsAntisymm String (fun a b => localeLe a b = true) :=
      ⟨fun a b h1 h2 => localeLe_antisymm a b h1 h2⟩
    have := List.eq_of_perm_of_sorted hperm hsorted1 hsorted2
    unfold opfsList
    rw [this]

/-- Closed instance of `list_visible_sorted`: the worked example. -/
theorem list_visible_sorted_example :
    opfsList localeLe exampleStore = Except.ok ["a.txt", "b.txt"] :=
  (list_visible_sorted localeLe localeLe_trans localeLe_total exampleStore).2

-- ═════════════════════════════════════════════════════════════════════════
-- Helper lemmas about the store.
-- ═════════════════════════════════════════════════════════════════════════

theorem findEntry_name (store : Store) (n : String) (e : DirEntry)
    (h : findEntry store n = some e) : e.name = n := by
  have := List.find?_some h
  simpa using this

theorem findEntry_setFileData_self (store : Store) (name : String) (d : List Nat) :
    findEntry (setFileData store name d) name =
      (findEntry store name).map (fun e => { e with data := d }) := by
  induction store with
  | nil => rfl
  | cons e store ih =>
    unfold setFileData findEntry at *
    rw [List.map_cons]
    by_cases he : e.name == name
    · rw [if_pos he,
        @List.find?_cons_of_pos _ (fun (x : DirEntry) => x.name == name) e store he,
        @List.find?_cons_of_pos _ (fun (x : DirEntry) => x.name == name)
          ⟨e.name, e.kind, d⟩ _ he]
      rfl
    · rw [if_neg he,
        @List.find?_cons_of_neg _ (fun (x : DirEntry) => x.name == name) _ _ he,
        @List.find?_cons_of_neg _ (fun (x : DirEntry) => x.name == name) _ _ he, ih]

theorem findEntry_filter_out (store : Store) (name : String) :
    findEntry (store.filter (fun e => !(e.name == name))) name = none := by
  induction store with
  | nil => rfl
  | cons e store ih =>
    unfold findEntry at *
    by_cases he : e.name == name
    · simp [List.filter_cons, he, ih]
    · simp [List.filter_cons, he, List.find?, ih]

theorem getFileHandle_ok_findEntry (store store1 : Store) (name : String)
    (create : Bool) (old : List Nat)
    (h : getFileHandle store name create = Except.ok (store1, old)) :
    findEntry store1 name = some ⟨name, EntryKind.file, old⟩ := by
  unfold getFileHandle at h
  cases hf : findEntry store name with
  | some e =>
    simp only [hf] at h
    by_cases hk : e.kind = EntryKind.file
    · rw [if_pos hk] at h
      simp only [Except.ok.injEq, Prod.mk.injEq] at h
      obtain ⟨h1, h2⟩ := h
      have hn := findEntry_name store name e hf
      subst h1
      rw [hf]
      cases e
      simp_all
    · rw [if_neg hk] at h
      cases h
  | none =>
    simp only [hf] at h
    cases create with
    | false => cases h
    | true =>
      simp only [if_true, Except.ok.injEq, Prod.mk.injEq] at h
      obtain ⟨h1, h2⟩ := h
      subst h1
      unfold findEntry at *
      rw [List.find?_append, hf]
      simp [List.find?, ← h2]

theorem success_trace_foldl (oldData bytes : List Nat) :
    ([HOp.truncate 0, HOp.write bytes 0, HOp.flush,
      HOp.close].foldl applyHOp oldData) = bytes := by
  simp [applyHOp]

theorem syncWritePath_ok_trace (f : Faults) (content : String)
    (h : (syncWritePath f content).result = Except.ok ()) :
    (syncWritePath f content).trace =
      [HOp.truncate 0, HOp.write (utf8Encode content) 0, HOp.flush, HOp.close] := by
  obtain ⟨e1, e2, e3, e4⟩ := f
  cases e1 <;> cases e2 <;> cases e3 <;> cases e4 <;> simp_all [syncWritePath]

theorem opfsCreate_ok_fileData (f : Faults) (store store2 : Store)
    (name content v : String)
    (h : opfsCreate f store name content = (store2, Except.ok v)) :
    fileData store2 name = some (utf8Encode content) := by
  unfold opfsCreate at h
  cases hg : getFileHandle store name true with
  | error e =>
    rw [hg] at h
    simp at h
  | ok p =>
    obtain ⟨store1, old⟩ := p
    rw [hg] at h
    simp only [Prod.mk.injEq] at h
    obtain ⟨h1, h2⟩ := h
    have hres : (syncWritePath f content).result = Except.ok () := by
      cases hr : (syncWritePath f content).result with
      | ok u => rfl
      | error e =>
        rw [hr] at h2
        simp [Except.map] at h2
    rw [syncWritePath_ok_trace f content hres, success_trace_foldl] at h1
    have hfind := getFileHandle_ok_findEntry store store1 name true old hg
    subst h1
    unfold fileData
    rw [findEntry_setFileData_self, hfind]
    rfl

theorem opfsUpdate_ok_fileData (f : Faults) (store store2 : Store)
    (name content : String)
    (h : opfsUpdate f store name content = (store2, Except.ok ())) :
    fileData store2 name = some (utf8Encode content) := by
  unfold opfsUpdate at h
  cases hg : getFileHandle store name false with
  | error e =>
    rw [hg] at h
    simp at h
  | ok p =>
    obtain ⟨store1, old⟩ := p
    rw [hg] at h
    simp only [Prod.mk.injEq] at h
    obtain ⟨h1, h2⟩ := h
    rw [syncWritePath_ok_trace f content h2, success_trace_foldl] at h1
    have hfind := getFileHandle_ok_findEntry store store1 name false old hg
    subst h1
    unfold fileData
    rw [findEntry_setFileData_self, hfind]
    rfl

-- ═════════════════════════════════════════════════════════════════════════
-- C3: create-then-read round-trip.
-- ═════════════════════════════════════════════════════════════════════════

theorem getFileHandle_true_spec (store : Store) (name : String)
    (h : ∀ e, findEntry store name = some e → e.kind = EntryKind.file) :
    ∃ store1 old, getFileHandle store name true = Except.ok (store1, old) := by
  cases hf : findEntry store name with
  | some e =>
    have hk := h e hf
    refine ⟨store, e.data, ?_⟩
    unfold getFileHandle
    simp only [hf, if_pos hk]
  | none =>
    refine ⟨store ++ [⟨name, EntryKind.file, []⟩], [], ?_⟩
    unfold getFileHandle
    rw [hf]
    rfl

/-- C3: a successful `create(name, content)` stores exactly the UTF-8
encoding of `content`, and a `read(name)` on the resulting store decodes it
back to `content` unchanged. -/
theorem create_then_read_roundtrip (store : Store) (name content : String)
    (h : ∀ e, findEntry store name = some e → e.kind = EntryKind.file) :
    ∃ store2, opfsCreate noFaults store name content = (store2, Except.ok name) ∧
      fileData store2 name = some (utf8Encode content) ∧
      opfsRead store2 name = Except.ok content := by
  obtain ⟨store1, old, hg⟩ := getFileHandle_true_spec store name h
  have hw : syncWritePath noFaults content =
      { trace := [HOp.truncate 0, HOp.write (utf8Encode content) 0, HOp.flush,
          HOp.close],
        result := Except.ok () } := rfl
  have hc : opfsCreate noFaults store name content =
      (setFileData store1 name (utf8Encode content), Except.ok name) := by
    unfold opfsCreate
    rw [hg]
    simp only [hw, success_trace_foldl]
    rfl
  have hdata := opfsCreate_ok_fileData noFaults store _ name content name hc
  refine ⟨setFileData store1 name (utf8Encode content), hc, hdata, ?_⟩
  have hfind := getFileHandle_ok_findEntry store store1 name true old hg
  have hfind2 : findEntry (setFileData store1 name (utf8Encode content)) name =
      some ⟨name, EntryKind.file, utf8Encode content⟩ := by
    rw [findEntry_setFileData_self, hfind]
    rfl
  unfold opfsRead getFileHandle
  simp only [hfind2]
  simp [Except.map, utf8Decode_utf8Encode]

/-- Closed instance of `create_then_read_roundtrip` on an empty store. -/
theorem create_then_read_roundtrip_witness :
    ∃ store2, opfsCreate noFaults [] "notes.txt" "hello" =
        (store2, Except.ok "notes.txt") ∧
      fileData store2 "notes.txt" = some (utf8Encode "hello") ∧
      opfsRead store2 "notes.txt" = Except.ok "hello" :=
  create_then_read_roundtrip [] "notes.txt" "hello" (fun _ he => nomatch he)

-- ═════════════════════════════════════════════════════════════════════════
-- C4: write-path discipline (truncate, write, flush, guaranteed close).
-- ═════════════════════════════════════════════════════════════════════════

/-- C4: the write path shared by `create` and `update` always ends by
closing the handle (exactly one `close`, as the last operation, on every
exit path including a throwing encode, truncate, write or flush); when it
succeeds it performs exactly truncate-to-0, write-at-0, flush, close, and
leaves the file bytes equal to the UTF-8 encoding of the new content
whatever the previous content was; consequently a successful `create` or
`update` stores exactly the encoding of the new content. -/
theorem write_path_discipline (f : Faults) (content : String) (oldData : List Nat) :
    ((syncWritePath f content).trace.getLast? = some HOp.close ∧
     (syncWritePath f content).trace.count HOp.close = 1) ∧
    ((syncWritePath f content).result = Except.ok () →
      (syncWritePath f content).trace =
        [HOp.truncate 0, HOp.write (utf8Encode content) 0, HOp.flush, HOp.close] ∧
      (syncWritePath f content).trace.foldl applyHOp oldData = utf8Encode content) ∧
    (∀ store store2 name v,
      opfsCreate f store name content = (store2, Except.ok v) →
      fileData store2 name = some (utf8Encode content)) ∧
    (∀ store store2 name,
      opfsUpdate f store name content = (store2, Except.ok ()) →
      fileData store2 name = some (utf8Encode content)) := by
  refine ⟨?_, ?_, ?_, ?_⟩
  · obtain ⟨e1, e2, e3, e4⟩ := f
    cases e1 <;> cases e2 <;> cases e3 <;> cases e4 <;>
      simp [syncWritePath, List.count_cons, List.getLast?]
  · intro hres
    rw [syncWritePath_ok_trace f content hres]
    exact ⟨rfl, success_trace_foldl oldData (utf8Encode content)⟩
  · intro store store2 name v hc
    exact opfsCreate_ok_fileData f store store2 name content v hc
  · intro store store2 name hu
    exact opfsUpdate_ok_fileData f store store2 name content hu

/-- Closed instance of `write_path_discipline`: fault-free write of `"B"`
over previous bytes, and a faulty flush still closing the handle. -/
theorem write_path_discipline_witness :
    (syncWritePath noFaults "B").trace.foldl applyHOp (utf8Encode "A") =
      utf8Encode "B" ∧
    (syncWritePath ⟨none, none, none, some "disk full"⟩ "B").trace.getLast? =
      some HOp.close :=
  ⟨((write_path_discipline noFaults "B" (utf8Encode "A")).2.1 rfl).2,
   (write_path_discipline ⟨none, none, none, some "disk full"⟩ "B" []).1.1⟩

-- ═════════════════════════════════════════════════════════════════════════
-- C7: must-exist failures leave the store unchanged; delete-then-read.
-- ═════════════════════════════════════════════════════════════════════════

/-- C7: `read`, `update` and `delete` each fail with a not-found error when
the named entry is absent, and in each failure the returned store is the
unchanged input store; a successful `delete(name)` removes the entry, so a
following `read(name)` fails with a not-found error. -/
theorem missing_file_failures (store : Store) (name content : String) (f : Faults) :
    (findEntry store name = none →
      opfsRead store name = Except.error ("NotFoundError: " ++ name) ∧
      opfsUpdate f store name content =
        (store, Except.error ("NotFoundError: " ++ name)) ∧
      opfsDelete store name = (store, Except.error ("NotFoundError: " ++ name))) ∧
    (∀ store2, opfsDelete store name = (store2, Except.ok ()) →
      findEntry store2 name = none ∧
      opfsRead store2 name = Except.error ("NotFoundError: " ++ name)) := by
  constructor
  · intro hf
    have hg : getFileHandle store name false =
        Except.error ("NotFoundError: " ++ name) := by
      unfold getFileHandle
      rw [hf]
      rfl
    refine ⟨?_, ?_, ?_⟩
    · unfold opfsRead
      rw [hg]
      rfl
    · unfold opfsUpdate
      rw [hg]
    · unfold opfsDelete removeEntry
      rw [hf]
  · intro store2 hd
    unfold opfsDelete removeEntry at hd
    cases hf : findEntry store name with
    | none =>
      rw [hf] at hd
      simp at hd
    | some e =>
      rw [hf] at hd
      simp only [Prod.mk.injEq] at hd
      obtain ⟨h1, _⟩ := hd
      subst h1
      have hnone := findEntry_filter_out store name
      refine ⟨hnone, ?_⟩
      unfold opfsRead getFileHandle
      rw [hnone]
      rfl

/-- Closed instance of `missing_file_failures`: reading, updating and
deleting `ghost.txt` on an empty store all fail; deleting the only file
makes a subsequent read fail. -/
theorem missing_file_failures_witness :
    opfsRead [] "ghost.txt" = Except.error "NotFoundError: ghost.txt" ∧
    (∀ store2,
      opfsDelete [⟨"a.txt", EntryKind.file, []⟩] "a.txt" =
        (store2, Except.ok ()) →
      opfsRead store2 "a.txt" = Except.error "NotFoundError: a.txt") :=
  ⟨((missing_file_failures [] "ghost.txt" "" noFaults).1 rfl).1,
   fun store2 hd =>
     ((missing_file_failures [⟨"a.txt", EntryKind.file, []⟩] "a.txt" ""
       noFaults).2 store2 hd).2⟩

-- ═════════════════════════════════════════════════════════════════════════
-- C1: the dispatcher posts exactly one correlated Result Envelope.
-- ═════════════════════════════════════════════════════════════════════════

theorem executorPath_unknown (env : Env) (le : String → String → Bool)
    (f : Faults) (store : Store) (req : Request)
    (h : ¬ req.type ∈ knownTypes) :
    (executorPath env le f store req).2 =
      Except.error ("Unknown message type: " ++ req.type) := by
  unfold executorPath
  simp only [knownTypes, List.mem_cons, List.not_mem_nil, or_false, not_or] at h
  obtain ⟨h1, h2, h3, h4, h5, h6⟩ := h
  rw [if_neg h1, if_neg h2, if_neg h3, if_neg h4, if_neg h5, if_neg h6]

/-- C1: for every inbound Operation Envelope the dispatcher posts exactly
one Result Envelope, whose correlation id equals the request's; a
recognized type yields a success envelope exactly when the executor path
succeeds; an unrecognized type yields the "Unknown message type" failure;
and any executor-path error is converted into a failure envelope carrying
its message — never an escaped exception. -/
theorem dispatcher_exactly_one_response (env : Env) (le : String → String → Bool)
    (f : Faults) (store : Store) (req : Request) :
    ∃ r, (workerOnMessage env le f store req).2 = [r] ∧
      r.correlationId = req.correlationId ∧
      (¬ req.type ∈ knownTypes →
        r = Response.failure req.correlationId
          ("Unknown message type: " ++ req.type)) ∧
      (∀ d, (executorPath env le f store req).2 = Except.ok d →
        r = Response.success req.correlationId d) ∧
      (∀ e, (executorPath env le f store req).2 = Except.error e →
        r = Response.failure req.correlationId e) := by
  cases hx : executorPath env le f store req with
  | mk store2 res =>
    cases res with
    | ok d =>
      refine ⟨Response.success req.correlationId d, ?_, rfl, ?_, ?_, ?_⟩
      · unfold workerOnMessage
        rw [hx]
      · intro hunk
        have hu := executorPath_unknown env le f store req hunk
        rw [hx] at hu
        exact absurd hu (by simp)
      · intro d' hd'
        have h2 : (Except.ok d : Except String RData) = Except.ok d' := hd'
        injection h2 with h3
        rw [h3]
      · intro e he
        exact absurd he (by simp)
    | error e =>
      refine ⟨Response.failure req.correlationId e, ?_, rfl, ?_, ?_, ?_⟩
      · unfold workerOnMessage
        rw [hx]
      · intro hunk
        have hu := executorPath_unknown env le f store req hunk
        rw [hx] at hu
        have h2 : (Except.error e : Except String RData) =
            Except.error ("Unknown message type: " ++ req.type) := hu
        injection h2 with h3
        rw [h3]
      · intro d hd
        exact absurd hd (by simp)
      · intro e' he'
        have h2 : (Except.error e : Except String RData) = Except.error e' := he'
        injection h2 with h3
        rw [h3]

/-- Closed instance of `dispatcher_exactly_one_response`: a `"bogus"`
discriminator yields exactly the protocol-error failure envelope with the
request's correlation id. -/
theorem dispatcher_exactly_one_response_witness :
    (workerOnMessage ⟨true, true, true⟩ localeLe noFaults []
      ⟨"cid-1", "bogus", "", ""⟩).2 =
      [Response.failure "cid-1" "Unknown message type: bogus"] := by
  obtain ⟨r, h1, _, h3, _, _⟩ :=
    dispatcher_exactly_one_response ⟨true, true, true⟩ localeLe noFaults []
      ⟨"cid-1", "bogus", "", ""⟩
  rw [h1, h3 (by decide)]
  rfl

-- ═════════════════════════════════════════════════════════════════════════
-- Helper lemmas about the pending registry and the promise heap.
-- ═════════════════════════════════════════════════════════════════════════

theorem mapGet_mapSet_self (m : List (String × Nat)) (k : String) (v : Nat) :
    mapGet (mapSet m k v) k = some v := by
  induction m with
  | nil => simp [mapSet, mapGet]
  | cons p m ih =>
    by_cases hp : p.1 == k
    · simp [mapSet, hp, mapGet]
    · simp [mapSet, hp, mapGet, ih]

theorem mapGet_mapSet_ne (m : List (String × Nat)) (k k' : String) (v : Nat)
    (h : k' ≠ k) : mapGet (mapSet m k v) k' = mapGet m k' := by
  induction m with
  | nil => simp [mapSet, mapGet, Ne.symm h]
  | cons p m ih =>
    by_cases hp : p.1 == k
    · have hp1 : p.1 = k := by simpa using hp
      simp [mapSet, hp, mapGet, hp1, Ne.symm h]
    · simp [mapSet, hp, mapGet, ih]

theorem mapGet_mapDelete_self (m : List (String × Nat)) (k : String) :
    mapGet (mapDelete m k) k = none := by
  induction m with
  | nil => rfl
  | cons p m ih =>
    by_cases hp : p.1 == k
    · simp [mapDelete, hp, ih]
    · simp [mapDelete, hp, mapGet, ih]

theorem mapGet_mapDelete_ne (m : List (String × Nat)) (k k' : String)
    (h : k' ≠ k) : mapGet (mapDelete m k) k' = mapGet m k' := by
  induction m with
  | nil => rfl
  | cons p m ih =>
    by_cases hp : p.1 == k
    · have hp1 : p.1 = k := by simpa using hp
      simp [mapDelete, hp, mapGet, hp1, Ne.symm h, ih]
    · simp [mapDelete, hp, mapGet, ih]

theorem pmGet_append_other (ps : List (Nat × PromiseState))
    (q : Nat × PromiseState) (pid : Nat) (h : pid ≠ q.1) :
    pmGet (ps ++ [q]) pid = pmGet ps pid := by
  induction ps with
  | nil => simp [pmGet, Ne.symm h]
  | cons p ps ih =>
    by_cases hp : p.1 == pid <;> simp [pmGet, hp, ih]

theorem pmGet_append_self (ps : List (Nat × PromiseState))
    (q : Nat × PromiseState) (h : pmGet ps q.1 = none) :
    pmGet (ps ++ [q]) q.1 = some q.2 := by
  induction ps with
  | nil => simp [pmGet]
  | cons p ps ih =>
    by_cases hp : p.1 == q.1
    · simp [pmGet, hp] at h
    · simp only [pmGet, hp] at h
      simp only [List.cons_append, pmGet, hp]
      exact ih h

theorem pmGet_resolvePromise_self (ps : List (Nat × PromiseState)) (pid : Nat)
    (d : RData) (h : pmGet ps pid = some PromiseState.unsettled) :
    pmGet (resolvePromise ps pid d) pid = some (PromiseState.resolved d) := by
  induction ps with
  | nil => simp [pmGet] at h
  | cons p ps ih =>
    by_cases hp : p.1 == pid
    · simp only [pmGet, hp, if_true, Option.some.injEq] at h
      simp [resolvePromise, pmGet, hp, h]
    · simp only [pmGet, hp] at h
      simpa [resolvePromise, hp, pmGet] using ih h

theorem pmGet_resolvePromise_ne (ps : List (Nat × PromiseState)) (pid pid' : Nat)
    (d : RData) (h : pid' ≠ pid) :
    pmGet (resolvePromise ps pid d) pid' = pmGet ps pid' := by
  induction ps with
  | nil => rfl
  | cons p ps ih =>
    by_cases hp : p.1 == pid
    · have hp1 : p.1 = pid := by simpa using hp
      simp [resolvePromise, hp, pmGet, hp1, Ne.symm h, ih]
    · simp [resolvePromise, hp, pmGet, ih]

theorem pmGet_rejectPromise_self (ps : List (Nat × PromiseState)) (pid : Nat)
    (e : String) (h : pmGet ps pid = some PromiseState.unsettled) :
    pmGet (rejectPromise ps pid e) pid = some (PromiseState.rejected e) := by
  induction ps with
  | nil => simp [pmGet] at h
  | cons p ps ih =>
    by_cases hp : p.1 == pid
    · simp only [pmGet, hp, if_true, Option.some.injEq] at h
      simp [rejectPromise, pmGet, hp, h]
    · simp only [pmGet, hp] at h
      simpa [rejectPromise, hp, pmGet] using ih h

theorem pmGet_rejectPromise_ne (ps : List (Nat × PromiseState)) (pid pid' : Nat)
    (e : String) (h : pid' ≠ pid) :
    pmGet (rejectPromise ps pid e) pid' = pmGet ps pid' := by
  induction ps with
  | nil => rfl
  | cons p ps ih =>
    by_cases hp : p.1 == pid
    · have hp1 : p.1 = pid := by simpa using hp
      simp [rejectPromise, hp, pmGet, hp1, Ne.symm h, ih]
    · simp [rejectPromise, hp, pmGet, ih]

-- ═════════════════════════════════════════════════════════════════════════
-- Helper lemmas about `getWorker` and `send`.
-- ═════════════════════════════════════════════════════════════════════════

theorem getWorker_cases (s : BridgeState) :
    (getWorker s).1 = s ∨
    (getWorker s).1 = { s with worker := some (newWorker s.nextWid), nextWid := s.nextWid + 1 } := by
  unfold getWorker
  cases s.worker <;> simp

theorem getWorker_pending (s : BridgeState) : (getWorker s).1.pending = s.pending := by
  rcases getWorker_cases s with h | h <;> rw [h]

theorem getWorker_promises (s : BridgeState) :
    (getWorker s).1.promises = s.promises := by
  rcases getWorker_cases s with h | h <;> rw [h]

theorem getWorker_nextPid (s : BridgeState) :
    (getWorker s).1.nextPid = s.nextPid := by
  rcases getWorker_cases s with h | h <;> rw [h]

theorem send_eq (s s1 : BridgeState) (w : WorkerInst) (req : Request)
    (h : getWorker s = (s1, w)) :
    send s req = (postRequest (registerCall s1 req.correlationId).1 w req,
      (registerCall s1 req.correlationId).2) := by
  unfold send
  rw [h]

theorem send_parts (s : BridgeState) (req : Request) :
    (send s req).2 = s.nextPid ∧
    (send s req).1.nextPid = s.nextPid + 1 ∧
    (send s req).1.pending = mapSet s.pending req.correlationId s.nextPid ∧
    (send s req).1.promises =
      s.promises ++ [(s.nextPid, PromiseState.unsettled)] := by
  cases hgw : getWorker s with
  | mk s1 w =>
    have hp : s1.pending = s.pending := by
      have h := getWorker_pending s
      rw [hgw] at h
      exact h
    have hq : s1.promises = s.promises := by
      have h := getWorker_promises s
      rw [hgw] at h
      exact h
    have hn : s1.nextPid = s.nextPid := by
      have h := getWorker_nextPid s
      rw [hgw] at h
      exact h
    rw [send_eq s s1 w req hgw]
    unfold postRequest registerCall
    exact ⟨hn, by rw [hn], by rw [hp, hn], by rw [hq, hn]⟩

-- ═════════════════════════════════════════════════════════════════════════
-- C10: `send` registers before posting.
-- ═════════════════════════════════════════════════════════════════════════

/-- C10: inside `send`, the pending entry is registered under the request's
correlation id strictly before the envelope is posted: the state handed to
`postMessage` already maps the id to the new promise, posting never touches
the registry, and after `send` completes the id still maps to the promise
`send` returned — so a response can never find its entry missing. -/
theorem send_registers_before_posting (s : BridgeState) (req : Request) :
    (mapGet ((registerCall (getWorker s).1 req.correlationId).1).pending
        req.correlationId =
      some (registerCall (getWorker s).1 req.correlationId).2) ∧
    (∀ s' w, (postRequest s' w req).pending = s'.pending) ∧
    (mapGet (send s req).1.pending req.correlationId = some (send s req).2) := by
  refine ⟨?_, fun s' w => rfl, ?_⟩
  · unfold registerCall
    exact mapGet_mapSet_self _ _ _
  · have h := (send_parts s req).2.2.1
    rw [h, (send_parts s req).1]
    exact mapGet_mapSet_self _ _ _

-- ═════════════════════════════════════════════════════════════════════════
-- C9: the crash handler only clears the worker slot; stale ids still settle.
-- ═════════════════════════════════════════════════════════════════════════

/-- C9: the `worker.onerror` handler sets the singleton slot to `none` and
changes nothing else — in particular the pending registry survives intact —
and because the registry is shared across worker instances, a later Result
Envelope bearing one of the surviving correlation ids still settles the
corresponding old promise instead of being discarded. -/
theorem crash_clears_only_worker_slot (s : BridgeState) :
    ((onWorkerError s).worker = none ∧
     (onWorkerError s).pending = s.pending ∧
     (onWorkerError s).promises = s.promises ∧
     (onWorkerError s).nextWid = s.nextWid ∧
     (onWorkerError s).nextPid = s.nextPid ∧
     (onWorkerError s).posted = s.posted) ∧
    (∀ cid pid d, mapGet s.pending cid = some pid →
      promiseState s pid = some PromiseState.unsettled →
      promiseState (bridgeOnMessage (onWorkerError s) (Response.success cid d))
        pid = some (PromiseState.resolved d)) := by
  refine ⟨⟨rfl, rfl, rfl, rfl, rfl, rfl⟩, ?_⟩
  intro cid pid d hcid hps
  unfold bridgeOnMessage
  have hget : mapGet (onWorkerError s).pending
      (Response.success cid d).correlationId = some pid := hcid
  rw [hget]
  exact pmGet_resolvePromise_self _ _ _ hps

/-- A state with one call pending under correlation id `"a"`, about to see
its worker crash. -/
def crashedExample : BridgeState :=
  { worker := some (newWorker 0), nextWid := 1, pending := [("a", 0)],
    promises := [(0, PromiseState.unsettled)], nextPid := 1, posted := [] }

/-- Closed instance of `crash_clears_only_worker_slot`: after the crash the
stale envelope for `"a"` still resolves promise `0`. -/
theorem crash_clears_only_worker_slot_witness :
    promiseState (bridgeOnMessage (onWorkerError crashedExample)
      (Response.success "a" (RData.str "x"))) 0 =
      some (PromiseState.resolved (RData.str "x")) :=
  (crash_clears_only_worker_slot crashedExample).2 "a" 0 (RData.str "x")
    (by decide) (by decide)

-- ═════════════════════════════════════════════════════════════════════════
-- C2: correlation exactness over concurrent calls.
-- ═════════════════════════════════════════════════════════════════════════

theorem sendPids_cons (s : BridgeState) (r : Request) (rs : List Request) :
    sendPids s (r :: rs) =
      ((sendPids (send s r).1 rs).1,
        (send s r).2 :: (sendPids (send s r).1 rs).2) := rfl

theorem sendPids_pids (reqs : List Request) : ∀ s : BridgeState,
    (sendPids s reqs).2 = List.range' s.nextPid reqs.length ∧
    (sendPids s reqs).1.nextPid = s.nextPid + reqs.length := by
  induction reqs with
  | nil =>
    intro s
    exact ⟨rfl, rfl⟩
  | cons r rs ih =>
    intro s
    obtain ⟨ih1, ih2⟩ := ih (send s r).1
    rw [sendPids_cons]
    constructor
    · show (send s r).2 :: (sendPids (send s r).1 rs).2 =
        List.range' s.nextPid (rs.length + 1)
      rw [ih1, (send_parts s r).1, (send_parts s r).2.1]
      rfl
    · show (sendPids (send s r).1 rs).1.nextPid = s.nextPid + (rs.length + 1)
      rw [ih2, (send_parts s r).2.1]
      omega

theorem sendPids_pending_other (rs : List Request) : ∀ (s : BridgeState)
    (cid : String), (∀ r ∈ rs, r.correlationId ≠ cid) →
    mapGet (sendPids s rs).1.pending cid = mapGet s.pending cid := by
  induction rs with
  | nil => intro s cid _; rfl
  | cons r rs ih =>
    intro s cid h
    rw [sendPids_cons]
    show mapGet (sendPids (send s r).1 rs).1.pending cid = mapGet s.pending cid
    rw [ih (send s r).1 cid (fun r' hr' => h r' (List.mem_cons_of_mem _ hr')),
      (send_parts s r).2.2.1]
    exact mapGet_mapSet_ne _ _ _ _ (Ne.symm (h r (List.mem_cons_self r rs)))

theorem sendPids_registry (reqs : List Request) : ∀ (s : BridgeState),
    List.Pairwise (fun a b => a ≠ b) (reqs.map Request.correlationId) →
    ∀ i, i < reqs.length →
    ∃ req pid, reqs[i]? = some req ∧ (sendPids s reqs).2[i]? = some pid ∧
      mapGet (sendPids s reqs).1.pending req.correlationId = some pid := by
  induction reqs with
  | nil =>
    intro s _ i hi
    simp at hi
  | cons r rs ih =>
    intro s hpw i hi
    have hpw1 : ∀ b ∈ rs.map Request.correlationId, r.correlationId ≠ b :=
      (List.pairwise_cons.mp (by simpa using hpw)).1
    have hpwtail : List.Pairwise (fun a b => a ≠ b)
        (rs.map Request.correlationId) :=
      (List.pairwise_cons.mp (by simpa using hpw)).2
    cases i with
    | zero =>
      refine ⟨r, (send s r).2, by simp, by simp [sendPids_cons], ?_⟩
      rw [sendPids_cons]
      show mapGet (sendPids (send s r).1 rs).1.pending r.correlationId =
        some (send s r).2
      have hothers : ∀ r' ∈ rs, r'.correlationId ≠ r.correlationId := by
        intro r' hr'
        exact Ne.symm (hpw1 r'.correlationId (List.mem_map_of_mem _ hr'))
      rw [sendPids_pending_other rs (send s r).1 r.correlationId hothers,
        (send_parts s r).2.2.1, (send_parts s r).1]
      exact mapGet_mapSet_self _ _ _
    | succ j =>
      have hj : j < rs.length := by simpa using hi
      obtain ⟨req, pid, h1, h2, h3⟩ := ih (send s r).1 hpwtail j hj
      refine ⟨req, pid, by simpa using h1, ?_, ?_⟩
      · rw [sendPids_cons]
        simpa using h2
      · rw [sendPids_cons]
        exact h3

theorem bridgeOnMessage_absent (s : BridgeState) (resp : Response)
    (h : mapGet s.pending resp.correlationId = none) :
    bridgeOnMessage s resp = s := by
  unfold bridgeOnMessage
  rw [h]

theorem bridgeOnMessage_present (s : BridgeState) (resp : Response) (pid : Nat)
    (h : mapGet s.pending resp.correlationId = some pid) :
    (bridgeOnMessage s resp).pending = mapDelete s.pending resp.correlationId ∧
    (bridgeOnMessage s resp).promises = (match resp with
      | Response.success _ d => resolvePromise s.promises pid d
      | Response.failure _ e => rejectPromise s.promises pid e) := by
  unfold bridgeOnMessage
  rw [h]
  cases resp <;> exact ⟨rfl, rfl⟩

/-- C2: promise identities of a batch of concurrent calls are pairwise
distinct; with pairwise-distinct correlation ids each call's id maps to its
own promise in the registry; an envelope whose id has no entry is discarded
silently; an envelope with an entry removes it and settles exactly that
promise (resolving with the data on success, rejecting with the error
string on failure) while every other registry entry and promise is
untouched; and a second envelope with the same id changes nothing. -/
theorem correlation_registry_exactness (s : BridgeState) (reqs : List Request)
    (resp resp' : Response) :
    ((sendPids s reqs).2.Nodup) ∧
    (List.Pairwise (fun a b => a ≠ b) (reqs.map Request.correlationId) →
      ∀ i, i < reqs.length →
      ∃ req pid, reqs[i]? = some req ∧ (sendPids s reqs).2[i]? = some pid ∧
        mapGet (sendPids s reqs).1.pending req.correlationId = some pid) ∧
    (mapGet s.pending resp.correlationId = none → bridgeOnMessage s resp = s) ∧
    (∀ pid, mapGet s.pending resp.correlationId = some pid →
      mapGet (bridgeOnMessage s resp).pending resp.correlationId = none ∧
      (∀ cid', cid' ≠ resp.correlationId →
        mapGet (bridgeOnMessage s resp).pending cid' = mapGet s.pending cid') ∧
      (∀ pid', pid' ≠ pid →
        promiseState (bridgeOnMessage s resp) pid' = promiseState s pid') ∧
      (promiseState s pid = some PromiseState.unsettled →
        promiseState (bridgeOnMessage s resp) pid =
          some (match resp with
            | Response.success _ d => PromiseState.resolved d
            | Response.failure _ e => PromiseState.rejected e))) ∧
    (resp'.correlationId = resp.correlationId →
      bridgeOnMessage (bridgeOnMessage s resp) resp' = bridgeOnMessage s resp) := by
  refine ⟨?_, ?_, bridgeOnMessage_absent s resp, ?_, ?_⟩
  · rw [(sendPids_pids reqs s).1]
    exact List.nodup_range' _ _ _
  · intro hpw i hi
    exact sendPids_registry reqs s hpw i hi
  · intro pid hpid
    obtain ⟨hpend, hprom⟩ := bridgeOnMessage_present s resp pid hpid
    refine ⟨?_, ?_, ?_, ?_⟩
    · rw [hpend]
      exact mapGet_mapDelete_self _ _
    · intro cid' hcid'
      rw [hpend]
      exact mapGet_mapDelete_ne _ _ _ hcid'
    · intro pid' hpid'
      unfold promiseState
      rw [hprom]
      cases resp with
      | success cid0 d0 => exact pmGet_resolvePromise_ne _ _ _ _ hpid'
      | failure cid0 e0 => exact pmGet_rejectPromise_ne _ _ _ _ hpid'
    · intro hun
      unfold promiseState
      rw [hprom]
      cases resp with
      | success cid0 d0 => exact pmGet_resolvePromise_self _ _ _ hun
      | failure cid0 e0 => exact pmGet_rejectPromise_self _ _ _ hun
  · intro hcid
    cases hm : mapGet s.pending resp.correlationId with
    | none =>
      rw [bridgeOnMessage_absent s resp hm]
      exact bridgeOnMessage_absent s resp' (by rw [hcid]; exact hm)
    | some pid =>
      have h1 := (bridgeOnMessage_present s resp pid hm).1
      apply bridgeOnMessage_absent
      rw [hcid, h1]
      exact mapGet_mapDelete_self _ _

/-- A state with a single pending call registered under id `"a"`. -/
def pendingExample : BridgeState :=
  { worker := some (newWorker 0), nextWid := 1, pending := [("a", 0)],
    promises := [(0, PromiseState.unsettled)], nextPid := 1, posted := [] }

/-- Closed instance of `correlation_registry_exactness`: an envelope with an
unknown id is discarded, and a duplicate envelope for an already-settled id
settles nothing further. -/
theorem correlation_registry_exactness_witness :
    bridgeOnMessage pendingExample (Response.success "zz" RData.unit) =
      pendingExample ∧
    bridgeOnMessage
        (bridgeOnMessage pendingExample (Response.success "a" RData.unit))
        (Response.failure "a" "late") =
      bridgeOnMessage pendingExample (Response.success "a" RData.unit) :=
  ⟨(correlation_registry_exactness pendingExample []
      (Response.success "zz" RData.unit)
      (Response.success "zz" RData.unit)).2.2.1 (by decide),
   (correlation_registry_exactness pendingExample []
      (Response.success "a" RData.unit)
      (Response.failure "a" "late")).2.2.2.2 rfl⟩

-- ═════════════════════════════════════════════════════════════════════════
-- C5: crash recovery — abandoned promises never settle, next call gets a
-- fresh worker with listeners, and that call can succeed.
-- ═════════════════════════════════════════════════════════════════════════

theorem bridgeOnMessage_nextPid (s : BridgeState) (resp : Response) :
    (bridgeOnMessage s resp).nextPid = s.nextPid := by
  unfold bridgeOnMessage
  cases hm : mapGet s.pending resp.correlationId with
  | none => rfl
  | some pid => cases resp <;> rfl

theorem never_settle_aux (evs : List BridgeEvent) : ∀ (s : BridgeState)
    (pid : Nat), pid < s.nextPid →
    (∀ resp, BridgeEvent.response resp ∈ evs →
      mapGet s.pending resp.correlationId ≠ some pid) →
    promiseState (runBridge s evs) pid = promiseState s pid := by
  induction evs with
  | nil => intro s pid _ _; rfl
  | cons ev evs ih =>
    intro s pid hpid hresp
    show promiseState (runBridge (stepBridge s ev) evs) pid = promiseState s pid
    cases ev with
    | call req =>
      have hppid : pid < (send s req).1.nextPid := by
        rw [(send_parts s req).2.1]
        omega
      have hresp2 : ∀ resp, BridgeEvent.response resp ∈ evs →
          mapGet (send s req).1.pending resp.correlationId ≠ some pid := by
        intro resp hr
        rw [(send_parts s req).2.2.1]
        by_cases hc : resp.correlationId = req.correlationId
        · rw [hc, mapGet_mapSet_self]
          intro hcontra
          have h2 : s.nextPid = pid := by
            injection hcontra
          omega
        · rw [mapGet_mapSet_ne _ _ _ _ hc]
          exact hresp resp (List.mem_cons_of_mem _ hr)
      show promiseState (runBridge (send s req).1 evs) pid = promiseState s pid
      rw [ih (send s req).1 pid hppid hresp2]
      unfold promiseState
      rw [(send_parts s req).2.2.2]
      exact pmGet_append_other _ _ _ (show pid ≠ s.nextPid from by omega)
    | response resp =>
      have hcur := hresp resp (List.mem_cons_self _ _)
      show promiseState (runBridge (bridgeOnMessage s resp) evs) pid =
        promiseState s pid
      cases hm : mapGet s.pending resp.correlationId with
      | none =>
        rw [bridgeOnMessage_absent s resp hm]
        exact ih s pid hpid (fun r hr => hresp r (List.mem_cons_of_mem _ hr))
      | some pid2 =>
        have hne : pid2 ≠ pid := by
          intro he
          rw [he] at hm
          exact hcur hm
        obtain ⟨hpend, hprom⟩ := bridgeOnMessage_present s resp pid2 hm
        have hresp2 : ∀ r2, BridgeEvent.response r2 ∈ evs →
            mapGet (bridgeOnMessage s resp).pending r2.correlationId ≠
              some pid := by
          intro r2 hr
          rw [hpend]
          by_cases hc : r2.correlationId = resp.correlationId
          · rw [hc, mapGet_mapDelete_self]
            intro hcontra
            cases hcontra
          · rw [mapGet_mapDelete_ne _ _ _ hc]
            exact hresp r2 (List.mem_cons_of_mem _ hr)
        rw [ih (bridgeOnMessage s resp) pid
          (by rw [bridgeOnMessage_nextPid]; exact hpid) hresp2]
        unfold promiseState
        rw [hprom]
        cases resp with
        | success c0 d0 => exact pmGet_resolvePromise_ne _ _ _ _ (Ne.symm hne)
        | failure c0 e0 => exact pmGet_rejectPromise_ne _ _ _ _ (Ne.symm hne)
    | workerCrash =>
      show promiseState (runBridge (onWorkerError s) evs) pid = promiseState s pid
      exact ih (onWorkerError s) pid hpid
        (fun r hr => hresp r (List.mem_cons_of_mem _ hr))

/-- C5: after an uncaught worker error the singleton slot is cleared; the
promises of the calls pending at that moment never settle across any
subsequent activity (as long as the dead worker delivers nothing for their
correlation ids); the next call lazily creates a fresh worker instance with
both the message listener and the uncaught-error listener attached; and that
new call succeeds once its own response arrives. -/
theorem crash_recovery (s : BridgeState) (req : Request) (d : RData) :
    ((onWorkerError s).worker = none) ∧
    (∀ pid evs, pid < s.nextPid →
      (∀ resp, BridgeEvent.response resp ∈ evs →
        mapGet s.pending resp.correlationId ≠ some pid) →
      promiseState (runBridge (onWorkerError s) evs) pid = promiseState s pid) ∧
    ((send (onWorkerError s) req).1.worker = some (newWorker s.nextWid) ∧
     (newWorker s.nextWid).hasMessageListener = true ∧
     (newWorker s.nextWid).hasErrorListener = true) ∧
    (pmGet s.promises s.nextPid = none →
      promiseState (bridgeOnMessage (send (onWorkerError s) req).1
          (Response.success req.correlationId d))
        (send (onWorkerError s) req).2 =
        some (PromiseState.resolved d)) := by
  refine ⟨rfl, ?_, ⟨rfl, rfl, rfl⟩, ?_⟩
  · intro pid evs hpid hresp
    exact never_settle_aux evs (onWorkerError s) pid hpid hresp
  · intro hwf
    have hget : mapGet (send (onWorkerError s) req).1.pending
        (Response.success req.correlationId d).correlationId =
        some (send (onWorkerError s) req).2 := by
      rw [(send_parts (onWorkerError s) req).2.2.1,
        (send_parts (onWorkerError s) req).1]
      exact mapGet_mapSet_self _ _ _
    obtain ⟨_, hprom2⟩ := bridgeOnMessage_present _ _ _ hget
    unfold promiseState
    rw [hprom2]
    apply pmGet_resolvePromise_self
    rw [(send_parts (onWorkerError s) req).2.2.2,
      (send_parts (onWorkerError s) req).1]
    exact pmGet_append_self _ _ hwf

/-- A state with one call (`"a"`, promise `0`) pending when the worker
signals an uncaught error. -/
def preCrashExample : BridgeState :=
  { worker := some (newWorker 0), nextWid := 1, pending := [("a", 0)],
    promises := [(0, PromiseState.unsettled)], nextPid := 1, posted := [] }

/-- Closed instance of `crash_recovery`: after the crash, running a new call
`"b"` and its response leaves promise `0` unsettled, and the new call's own
promise resolves. -/
theorem crash_recovery_witness :
    promiseState (runBridge (onWorkerError preCrashExample)
        [BridgeEvent.call ⟨"b", "list", "", ""⟩,
         BridgeEvent.response (Response.success "b" (RData.strs []))]) 0 =
      promiseState preCrashExample 0 ∧
    promiseState (bridgeOnMessage
        (send (onWorkerError preCrashExample) ⟨"b", "list", "", ""⟩).1
        (Response.success "b" (RData.strs [])))
      (send (onWorkerError preCrashExample) ⟨"b", "list", "", ""⟩).2 =
      some (PromiseState.resolved (RData.strs [])) := by
  constructor
  · refine (crash_recovery preCrashExample ⟨"b", "list", "", ""⟩
      (RData.strs [])).2.1 0
      [BridgeEvent.call ⟨"b", "list", "", ""⟩,
       BridgeEvent.response (Response.success "b" (RData.strs []))]
      (by decide) ?_
    intro resp hr
    simp only [List.mem_cons, List.not_mem_nil, or_false] at hr
    rcases hr with hr | hr
    · cases hr
    · cases hr
      decide
  · exact (crash_recovery preCrashExample ⟨"b", "list", "", ""⟩
      (RData.strs [])).2.2.2 (by decide)

end OPFSPOC
